import Mathlib

/-!
Verification of the OldSpot unit-level aging and failure simulator against
its specification.  Every definition below is a shallow embedding of a
function of the C++ source (the latest revision of each translation unit:
the `oldspot` namespace revision using `config_t` sets of unit names).
C++ `double` values are modelled as real numbers; at the places where the
code deliberately relies on IEEE special values (infinite MTTFs, division
by zero, `isinf`/`isnan` guards) the embedding makes those values explicit,
with `ENNReal` for the nonnegative extended reals of the Weibull rate
computation and the inductive `FP` for results that may be `+inf`, `-inf`
or NaN.  `std::pow` with a real exponent is modelled by `Real.rpow`, which
agrees with IEEE `pow` on nonnegative bases.
-/

namespace OldSpot

noncomputable section

/-- One data point of an operating trace (latest `trace.hh`).  The `data`
map of the source is modelled with one field per recognized quantity: the
`Unit` constructor fills every missing key from the per-unit defaults
(`vdd`, `temperature`, `frequency`, `activity`, and for `Core` also
`power` and `peak_power`), so each key read by the code is present. -/
structure DataPoint where
  time : ℝ
  duration : ℝ
  activity : ℝ
  vdd : ℝ
  temperature : ℝ
  frequency : ℝ
  power : ℝ
  peak_power : ℝ

/-- The four wearout mechanisms of `failure.hh`. -/
inductive Mechanism where
  | NBTI
  | EM
  | HCI
  | TDDB
deriving DecidableEq

/-- Result of a `double` computation at the points where the code relies
on IEEE special values: a finite real, one of the two infinities, or NaN. -/
inductive FP where
  | num (x : ℝ)
  | inf
  | ninf
  | nan

/-! Constants of `failure.hh` (universal constants, device parameters and
the per-mechanism parameters used by the claims). -/

def q : ℝ := 1.60217662e-19
def k_B : ℝ := 8.6173303e-5
def eV_J : ℝ := 6.242e18
def fail_default : ℝ := 0.05
def devL : ℝ := 65
def Vt0_p : ℝ := 0.5
def Vt0_n : ℝ := 0.5
def tox : ℝ := 1.8
def Cox : ℝ := 1.92e-20
def alphaPowerLaw : ℝ := 1.3
def nbtiA : ℝ := 5.5e12
def nbtiB : ℝ := 8e11
def GammaIT : ℝ := 4.5
def GammaHT : ℝ := 4.5
def E_Akf : ℝ := 0.175
def E_Akr : ℝ := 0.2
def E_ADH2 : ℝ := 0.58
def E_AHT : ℝ := 0.03
def nbti_dt : ℝ := 3600 * 24
def hciE0 : ℝ := 0.8
def hciK : ℝ := 1.7e8
def A_bulk : ℝ := 0.005
def phi_it : ℝ := 3.7
def hciLambda : ℝ := 7.8
def hci_l : ℝ := 17
def Esat : ℝ := 0.011
def hci_n : ℝ := 0.45
def tddb_a : ℝ := 78
def tddb_b : ℝ := -0.081
def tddb_X : ℝ := 0.759
def tddb_Y : ℝ := -66.8
def tddb_Z : ℝ := -8.37e-4

/-! The Weibull engine (`reliability.hh` / `reliability.cc`). -/

/-- Weibull distribution parameters (`reliability.hh`). -/
structure Weibull where
  alpha : ℝ
  beta : ℝ

/-- `reliability(t) = exp(-(t/alpha)^beta)` (`reliability.hh`). -/
def Weibull.reliability (w : Weibull) (t : ℝ) : ℝ :=
  Real.exp (-(t / w.alpha) ^ w.beta)

/-- Rate parameter computed by `WeibullDistribution::operator*`
(`reliability.cc`): `pow(pow(1/alpha, beta) + pow(1/other.alpha, beta), -1/beta)`. -/
def Weibull.mulAlpha (w other : Weibull) : ℝ :=
  ((1 / w.alpha) ^ w.beta + (1 / other.alpha) ^ w.beta) ^ (-1 / w.beta)

/-- `WeibullDistribution::operator*`: throws `invalid_argument` when the
shapes differ (modelled as `none`), otherwise returns the combined
distribution with the same shape. -/
def Weibull.mul (w other : Weibull) : Option Weibull :=
  if w.beta = other.beta then some ⟨Weibull.mulAlpha w other, w.beta⟩ else none

/-- Shared-shape sample distribution used to instantiate the product
claim. -/
def wUnit : Weibull := ⟨1, 2⟩

/-- The product of `wUnit` with itself as computed by `Weibull.mul`. -/
def wUnitSq : Weibull := ⟨Weibull.mulAlpha wUnit wUnit, 2⟩

/-- `MTTFSegment` (`reliability.hh`).  Durations are nonnegative and an
MTTF may be `+inf` (a mechanism that never wears under the
configuration), so both are carried in the nonnegative extended reals,
where `d / ∞ = 0` and `x / 0 = ∞` for `x ≠ 0` agree with the IEEE
evaluation of the code on these inputs. -/
structure MTTFSegment where
  duration : ENNReal
  mttf : ENNReal

/-- The rate stored by the segment constructor
`WeibullDistribution::WeibullDistribution(double, const vector<MTTFSegment>&)`
(latest revision): `alpha += mttf.duration/mttf.mttf` over all segments,
then `alpha /= total_time` and `alpha = 1/alpha`.  The loop divides by
the raw MTTF of each segment; the `alphas` vector converted through
`Γ(1/β + 1)` is computed but never read. -/
def segmentsAlphaCode (segs : List MTTFSegment) : ENNReal :=
  let s := (segs.map fun g => g.duration / g.mttf).sum
  let total := (segs.map fun g => g.duration).sum
  1 / (s / total)

/-- The rate the specification prescribes: the time-weighted harmonic
average `ΣT / Σ(Δt_i / alpha_i)` of the per-segment rate parameters
`alpha_i = mttf_i / Γ(1/β + 1)`. -/
def segmentsAlphaSpec (beta : ℝ) (segs : List MTTFSegment) : ENNReal :=
  let total := (segs.map fun g => g.duration).sum
  let s := (segs.map fun g =>
    g.duration / (g.mttf / ENNReal.ofReal (Real.Gamma (1 / beta + 1)))).sum
  total / s

/-! The mechanism library (`failure.cc`, constants from `failure.hh`).
The NBTI search loop of the source is unbounded, so it is modelled with
explicit fuel; every other computation is closed-form. -/

/-- `linterp` (`interp.hh`). -/
def linterp (x : ℝ) (s f : ℝ × ℝ) : ℝ :=
  s.2 + (f.2 - s.2) * (x - s.1) / (f.1 - s.1)

/-- `NBTI::degradation` (`failure.cc`). -/
def NBTI.degradation (t vdd dVth temperature duty_cycle : ℝ) : ℝ :=
  let dc := (duty_cycle / (1 + Real.sqrt ((1 - duty_cycle) / 2))) ^ ((1 : ℝ) / 6)
  let V0 := vdd - Vt0_p - dVth
  let V := if V0 < 0 then 0 else V0
  let E_AIT := 2 / 3 * (E_Akf - E_Akr) + E_ADH2 / 6
  let dN_IT := nbtiA * V ^ GammaIT * Real.exp (-E_AIT / (k_B * temperature))
    * t ^ ((1 : ℝ) / 6)
  let dN_HT := nbtiB * V ^ GammaHT * Real.exp (-E_AHT / (k_B * temperature))
  dc * 0.027e-12 * (dN_IT + dN_HT)

/-- The search loop of `NBTI::timeToFailure`
(`for (; dVth < dVth_fail; t += dt) { dVth_prev = dVth; dVth = degradation(t, ...); }`),
with explicit fuel since the source loop is unbounded; on normal exit it
returns `(dVth_prev, dVth, t)`. -/
def NBTI.loop (vdd temperature duty_cycle dVth_fail : ℝ) :
    ℕ → ℝ → ℝ → ℝ → Option (ℝ × ℝ × ℝ)
  | 0, _, _, _ => none
  | fuel + 1, dVth_prev, dVth, t =>
    if dVth < dVth_fail then
      NBTI.loop vdd temperature duty_cycle dVth_fail fuel dVth
        (NBTI.degradation t vdd dVth temperature duty_cycle) (t + nbti_dt)
    else some (dVth_prev, dVth, t)

/-- `NBTI::timeToFailure` (`failure.cc`): a NaN `fail` argument (modelled
as `none`) becomes `fail_default`, a zero duty cycle returns `+inf`,
otherwise the threshold crossing of `dVth` is searched and linearly
interpolated.  `none` means the source loop would not have exited within
the given fuel. -/
def NBTI.timeToFailure (fuel : ℕ) (data : DataPoint) (duty_cycle : ℝ)
    (fail : Option ℝ) : Option FP :=
  let failv := fail.getD fail_default
  if duty_cycle = 0 then some FP.inf
  else
    let dVth_fail := (data.vdd - Vt0_p)
      - (data.vdd - Vt0_p) / (1 + failv) ^ ((1 : ℝ) / alphaPowerLaw)
    match NBTI.loop data.vdd data.temperature duty_cycle dVth_fail fuel 0 0 0 with
    | none => none
    | some (dVth_prev, dVth, t1) =>
      let t := t1 - nbti_dt
      if dVth = 0 then some (FP.num 0)
      else some (FP.num (linterp dVth_fail (dVth_prev, t - nbti_dt) (dVth, t)))

/-- IEEE division of two finite doubles: a zero divisor yields a signed
infinity, or NaN for `0/0`. -/
def fpDiv (x y : ℝ) : FP :=
  if y = 0 then
    if 0 < x then FP.inf else if x < 0 then FP.ninf else FP.nan
  else FP.num (x / y)

/-- `HCI::timeToFailure` (`failure.cc`): closed form; the final division
by `duty_cycle*frequency` is where a zero duty cycle enters and is
modelled with IEEE semantics. -/
def HCI.timeToFailure (data : DataPoint) (duty_cycle : ℝ) (fail : Option ℝ) : FP :=
  let failv := fail.getD fail_default
  let vdd := data.vdd
  let dVth_fail := (vdd - Vt0_n)
    - (vdd - Vt0_n) / (1 + failv) ^ ((1 : ℝ) / alphaPowerLaw)
  let Vt := k_B / eV_J * data.temperature / q
  let vdsat := ((vdd - Vt0_n + 2 * Vt) * devL * Esat)
    / (vdd - Vt0_n + 2 * Vt + A_bulk * devL * Esat)
  let Em := (vdd - vdsat) / hci_l
  let Eox := (vdd - Vt0_n) / tox
  let A_HCI := q / Cox * hciK * Real.sqrt (Cox * (vdd - Vt0_n))
  fpDiv ((dVth_fail / (A_HCI * Real.exp (Eox / hciE0)
      * Real.exp (-phi_it / eV_J / (q * hciLambda * Em)))) ^ ((1 : ℝ) / hci_n))
    (duty_cycle * data.frequency)

/-- `TDDB::timeToFailure` (`failure.cc`):
`pow(vdd, a - b*T)*exp((X + Y/T + Z*T)/(k_B*T))`. -/
def TDDB.timeToFailure (data : DataPoint) : ℝ :=
  let T := data.temperature
  data.vdd ^ (tddb_a - tddb_b * T)
    * Real.exp ((tddb_X + tddb_Y / T + tddb_Z * T) / (k_B * T))

/-! The failure dependency tree predicate (`unit.cc`, `Group::failed` of
the latest revision).  A direct child enters the loop only through its
`failed()` value, so the children are modelled by the list of those
Boolean values. -/

/-- The loop of `Group::failed`: `f` counts the failed children seen so
far; a failed child increments the counter (`++f`, evaluated only when
`child->failed()` holds) and the group reports failure as soon as the
counter exceeds the threshold. -/
def groupFailedLoop (failures : ℕ) (f : ℕ) : List Bool → Bool
  | [] => false
  | true :: rest =>
    if failures < f + 1 then true else groupFailedLoop failures (f + 1) rest
  | false :: rest => groupFailedLoop failures f rest

/-- `Group::failed()`: the loop starting from counter 0. -/
def groupFailed (failures : ℕ) (children : List Bool) : Bool :=
  groupFailedLoop failures 0 children

/-! Unit simulation state (`unit.hh`, latest revision).  The mutable
fields and the per-configuration tables are carried in one record;
configurations (`config_t = unordered_set<string>`) are finite sets of
names. -/

structure UnitState where
  age : ℝ
  copies : ℤ
  current_reliability : ℝ
  _failed : Bool
  remaining : ℤ
  serial : Bool
  config : Finset String
  prev_config : Finset String
  traces : List (Finset String × List DataPoint)
  reliabilities : List (Finset String × List (Mechanism × Weibull))
  overall_reliabilities : List (Finset String × Weibull)

/-- `Unit::reset()` (`unit.cc`): sets `age`, `_current_reliability`,
`_failed` and `remaining`; nothing else is touched. -/
def Unit.reset (u : UnitState) : UnitState :=
  { u with age := 0, current_reliability := 1, _failed := false,
           remaining := u.copies }

/-- `Unit::failure()` (`unit.cc`): `_failed = --remaining == 0`, and a
serial unit is additionally rejuvenated
(`_current_reliability = 1`, `age = 0`, `prev_config = {}`). -/
def Unit.failure (u : UnitState) : UnitState :=
  let r := u.remaining - 1
  let v : UnitState := { u with remaining := r, _failed := decide (r = 0) }
  if v.serial then
    { v with current_reliability := 1, age := 0, prev_config := ∅ }
  else v

/-- A concrete serial unit state with two remaining copies and a
non-empty previous configuration. -/
def uEx : UnitState :=
  { age := 3, copies := 2, current_reliability := 0, _failed := false,
    remaining := 2, serial := true, config := {"B"}, prev_config := {"B"},
    traces := [], reliabilities := [], overall_reliabilities := [] }

/-! Per-kind activity and the duty-cycle store of `compute_reliability`
(`unit.cc`, latest revision):
`trace.second[j].data["activity"] = min(activity(trace.second[j], mechanism), 1.0)`. -/

inductive UnitKind where
  | unit
  | core
  | logic
  | memory

/-- The kind-specific `activity` virtual methods (`unit.cc`):
generic `Unit`, `Core`, `Logic` (with the NBTI weighting) and `Memory`. -/
def activity : UnitKind → DataPoint → Mechanism → ℝ
  | UnitKind.unit, dp, _ => dp.activity
  | UnitKind.core, dp, _ => dp.power / dp.peak_power
  | UnitKind.logic, dp, m =>
      let duty_cycle := min (dp.activity / (dp.duration * dp.frequency)) 1
      if m = Mechanism.NBTI then 1 - duty_cycle * duty_cycle / 2 else duty_cycle
  | UnitKind.memory, _, m => if m = Mechanism.HCI then 0 else 1

/-- The duty-cycle value stored back into the data point by
`Unit::compute_reliability` and passed to `timeToFailure`. -/
def storedDutyCycle (k : UnitKind) (dp : DataPoint) (m : Mechanism) : ℝ :=
  min (activity k dp m) 1

/-- A data point holding the per-unit default quantities. -/
def dpDefault : DataPoint :=
  { time := 1, duration := 1, activity := 0, vdd := 1, temperature := 350,
    frequency := 1e9, power := 1, peak_power := 1 }

/-- The default data point with a negative `activity` value (the spec
notes activity is unclamped on input). -/
def dpNegActivity : DataPoint := { dpDefault with activity := -(1 / 2) }

/-! Group construction (`unit.cc`, `Group::Group`): children named `group`
recurse, children named `unit` are looked up in the unit registry by name
and silently skipped when the lookup fails; any other element name is
fatal (`exit(1)`, modelled as `none`). -/

/-- A constructed component tree node. -/
inductive BuiltComp where
  | unit (name : String)
  | group (name : String) (failures : ℕ) (children : List BuiltComp)

/-- An XML child element as seen by `Group::Group`: a nested `<group>`, a
`<unit name="..."/>` reference, or an element with any other name. -/
inductive XNode where
  | group (name : String) (failures : ℕ) (children : List XNode)
  | unitRef (name : String)
  | other (tag : String)

/-- The child-processing loop of `Group::Group`.  The registry is the
list of unit names (`find_if` compares `u->name == n`). -/
def buildChildren (units : List String) : List XNode → Option (List BuiltComp)
  | [] => some []
  | XNode.group n k cs :: rest => do
      let g ← buildChildren units cs
      let r ← buildChildren units rest
      pure (BuiltComp.group n k g :: r)
  | XNode.unitRef nm :: rest => do
      let r ← buildChildren units rest
      pure (if units.contains nm then BuiltComp.unit nm :: r else r)
  | XNode.other _ :: _ => none

/-- `Group::Group` on a `<group>` node. -/
def buildGroup (units : List String) (name : String) (failures : ℕ)
    (children : List XNode) : Option BuiltComp :=
  (buildChildren units children).map (BuiltComp.group name failures)

/-! The next-event sampler (`unit.cc`, `Unit::get_next_event`, latest
revision) and the Weibull inverse it calls (`reliability.cc`). -/

/-- Support of `uniform_real_distribution<double>(0, cr)`: the C++
standard specifies values in the half-open interval `[0, cr)`. -/
def nextEventSupport (cr : ℝ) : Set ℝ := Set.Ico 0 cr

/-- `WeibullDistribution::inverse` (`reliability.cc`): an infinite
`alpha` (modelled as `none`) returns `+inf` through the `isinf` guard;
otherwise `alpha*pow(-log r, 1/beta)`, with the IEEE evaluation at
`r = 0` (`-log 0 = +inf`) made explicit. -/
def Weibull.inverseFP (alpha : Option ℝ) (beta r : ℝ) : FP :=
  match alpha with
  | none => FP.inf
  | some a =>
    if r = 0 then
      if 0 < 1 / beta then
        if 0 < a then FP.inf else if a < 0 then FP.ninf else FP.nan
      else if 1 / beta < 0 then FP.num 0
      else FP.num a
    else FP.num (a * (-Real.log r) ^ (1 / beta))

/-- `Unit::get_next_event` applied to a drawn reliability `r`:
`next = inverse(r)`; if `isinf(next)` return `+inf`; otherwise return
`next - inverse(current_reliability)`. -/
def getNextEvent (alpha : Option ℝ) (beta cr r : ℝ) : FP :=
  match Weibull.inverseFP alpha beta r with
  | FP.inf => FP.inf
  | FP.ninf => FP.inf
  | FP.nan => FP.nan
  | FP.num x =>
    match Weibull.inverseFP alpha beta cr with
    | FP.num y => FP.num (x - y)
    | FP.inf => FP.ninf
    | FP.ninf => FP.inf
    | FP.nan => FP.nan

/-! Theorems.  Helper lemmas first, then for each claim its theorem and,
where required, counterexample and witness. -/

/-- Algebraic core of the product identity: with the combined rate
`s^(-1/b)` for `s = (1/a1)^b + (1/a2)^b`, the Weibull exponent splits as a
sum. -/
theorem weibull_rpow_split (a₁ a₂ b t : ℝ) (h₁ : 0 < a₁) (h₂ : 0 < a₂)
    (hb : 0 < b) (ht : 0 ≤ t) :
    (t / (((1 / a₁) ^ b + (1 / a₂) ^ b) ^ (-1 / b))) ^ b
      = (t / a₁) ^ b + (t / a₂) ^ b := by
  set s : ℝ := (1 / a₁) ^ b + (1 / a₂) ^ b with hs
  have hs1 : (0 : ℝ) < (1 / a₁) ^ b := Real.rpow_pos_of_pos (by positivity) b
  have hs2 : (0 : ℝ) < (1 / a₂) ^ b := Real.rpow_pos_of_pos (by positivity) b
  have hs_pos : 0 < s := by rw [hs]; linarith
  have hA_pos : 0 < s ^ (-1 / b) := Real.rpow_pos_of_pos hs_pos _
  have hApow : (s ^ (-1 / b)) ^ b = s⁻¹ := by
    rw [← Real.rpow_mul hs_pos.le]
    rw [div_mul_cancel₀ (-1 : ℝ) hb.ne']
    exact Real.rpow_neg_one s
  have key : (t / s ^ (-1 / b)) ^ b = t ^ b * s := by
    rw [Real.div_rpow ht hA_pos.le, hApow, div_eq_mul_inv, inv_inv]
  have e1 : (t / a₁) ^ b = t ^ b * (1 / a₁) ^ b := by
    rw [div_eq_mul_one_div, Real.mul_rpow ht (by positivity)]
  have e2 : (t / a₂) ^ b = t ^ b * (1 / a₂) ^ b := by
    rw [div_eq_mul_one_div, Real.mul_rpow ht (by positivity)]
  rw [key, e1, e2, hs]
  ring

/-- C2: for Weibull distributions with the same shape, the product
distribution's reliability at every `t ≥ 0` is the product of the two
reliabilities. -/
theorem c2_product_reliability (w₁ w₂ c : Weibull) (t : ℝ)
    (hc : Weibull.mul w₁ w₂ = some c)
    (h₁ : 0 < w₁.alpha) (h₂ : 0 < w₂.alpha) (hb : 0 < w₁.beta) (ht : 0 ≤ t) :
    c.reliability t = w₁.reliability t * w₂.reliability t := by
  unfold Weibull.mul at hc
  split_ifs at hc with hβ
  have hc' := Option.some.inj hc
  subst hc'
  unfold Weibull.reliability Weibull.mulAlpha
  rw [← hβ, ← Real.exp_add, ← neg_add]
  congr 1
  congr 1
  exact weibull_rpow_split w₁.alpha w₂.alpha w₁.beta t h₁ h₂ hb ht

/-- Witness for C2 at `alpha = 1`, `beta = 2`, `t = 1`. -/
theorem c2_product_reliability_witness :
    wUnitSq.reliability 1 = wUnit.reliability 1 * wUnit.reliability 1 :=
  c2_product_reliability wUnit wUnit wUnitSq 1
    (by simp [Weibull.mul, wUnit, wUnitSq]) (by norm_num [wUnit])
    (by norm_num [wUnit]) (by norm_num [wUnit]) (by norm_num)

/-- `Γ(1/2 + 1) = √π / 2`. -/
theorem Gamma_half_add_one : Real.Gamma (1 / (2 : ℝ) + 1) = Real.sqrt Real.pi / 2 := by
  rw [Real.Gamma_add_one (by norm_num), Real.Gamma_one_half_eq]
  ring

/-- `√π / 2 ≠ 1`, because `π < 4`. -/
theorem sqrt_pi_div_two_ne_one : Real.sqrt Real.pi / 2 ≠ 1 := by
  have h4 : Real.pi < 4 := by nlinarith [Real.pi_lt_d2]
  have hlt : Real.sqrt Real.pi < Real.sqrt 4 := by
    exact Real.sqrt_lt_sqrt Real.pi_pos.le h4
  have h2 : Real.sqrt 4 = 2 := by
    rw [show (4 : ℝ) = 2 ^ 2 by norm_num, Real.sqrt_sq (by norm_num)]
  intro h
  rw [div_eq_one_iff_eq (by norm_num)] at h
  rw [h, h2] at hlt
  exact lt_irrefl _ hlt

/-- C1 (code bug): at `beta = 2` on the single segment
`(duration, mttf) = (1, 1)` the constructor stores `alpha = 1`, while the
claimed time-weighted harmonic average of `alpha_i = mttf_i / Γ(1/β + 1)`
equals `2/√π ≈ 1.128`; the two differ by the factor `Γ(3/2)` that the
constructor's accumulation loop drops by dividing by the raw MTTFs. -/
theorem c1_segment_alpha_divergence :
    segmentsAlphaCode [⟨1, 1⟩] = 1 ∧
    segmentsAlphaSpec 2 [⟨1, 1⟩] ≠ segmentsAlphaCode [⟨1, 1⟩] := by
  have hcode : segmentsAlphaCode [⟨1, 1⟩] = 1 := by
    simp [segmentsAlphaCode]
  refine ⟨hcode, ?_⟩
  rw [hcode]
  have hG : Real.Gamma ((2 : ℝ)⁻¹ + 1) = Real.sqrt Real.pi / 2 := by
    rw [show ((2 : ℝ)⁻¹ + 1) = 1 / 2 + 1 by norm_num]
    exact Gamma_half_add_one
  have hspec : segmentsAlphaSpec 2 [⟨1, 1⟩]
      = (ENNReal.ofReal (Real.sqrt Real.pi / 2))⁻¹ := by
    simp [segmentsAlphaSpec, hG]
  rw [hspec]
  intro h
  have hone : ENNReal.ofReal (Real.sqrt Real.pi / 2) = 1 := by
    rw [← inv_inv (ENNReal.ofReal (Real.sqrt Real.pi / 2)), h, inv_one]
  have hpos : 0 < Real.sqrt Real.pi / 2 := by
    have := Real.sqrt_pos.mpr Real.pi_pos
    linarith
  rw [show (1 : ENNReal) = ENNReal.ofReal 1 by simp] at hone
  have := (ENNReal.ofReal_eq_ofReal_iff hpos.le (by norm_num)).mp hone
  exact sqrt_pi_div_two_ne_one this

/-- Loop invariant for `groupFailedLoop`: as long as the counter has not
yet passed the threshold, the loop accepts exactly when the children seen
so far plus the remaining failed children exceed the threshold. -/
theorem groupFailedLoop_iff (k : ℕ) (bs : List Bool) :
    ∀ f : ℕ, f ≤ k → (groupFailedLoop k f bs = true ↔ k < f + bs.count true) := by
  induction bs with
  | nil =>
    intro f hf
    simp only [groupFailedLoop, List.count_nil, Nat.add_zero]
    constructor
    · intro h; cases h
    · intro h; omega
  | cons b rest ih =>
    intro f hf
    have hct : (true :: rest).count true = rest.count true + 1 := by simp
    have hcf : (false :: rest).count true = rest.count true := by simp
    cases b with
    | true =>
      by_cases hk : k < f + 1
      · simp only [groupFailedLoop, if_pos hk, hct]
        constructor
        · intro _; omega
        · intro _; trivial
      · have h1 : f + 1 ≤ k := by omega
        simp only [groupFailedLoop, if_neg hk, hct]
        rw [ih (f + 1) h1]
        omega
    | false =>
      simp only [groupFailedLoop]
      rw [hcf, ih f hf]

/-- C3: `Group::failed()` returns true iff strictly more than `failures`
of the group's direct children are failed. -/
theorem c3_group_failed_iff (k : ℕ) (children : List Bool) :
    groupFailed k children = true ↔ k < children.count true := by
  have h := groupFailedLoop_iff k children 0 (Nat.zero_le k)
  simpa using h

/-- C4: a non-terminal `failure()` on a serial unit decrements `remaining`
by 1 and fully rejuvenates the unit; and after any `failure()` the
`_failed` flag holds iff `remaining == 0`. -/
theorem c4_failure_spec (u : UnitState) :
    (u.serial = true → 2 ≤ u.remaining →
      (Unit.failure u).remaining = u.remaining - 1 ∧
      (Unit.failure u)._failed = false ∧
      (Unit.failure u).age = 0 ∧
      (Unit.failure u).current_reliability = 1 ∧
      (Unit.failure u).prev_config = ∅) ∧
    ((Unit.failure u)._failed = true ↔ (Unit.failure u).remaining = 0) := by
  unfold Unit.failure
  by_cases hs : u.serial
  · simp only [hs, if_pos rfl]
    refine ⟨fun _ h2 => ⟨rfl, ?_, rfl, rfl, rfl⟩, ?_⟩
    · exact decide_eq_false (by omega)
    · simp
  · simp only [Bool.not_eq_true] at hs
    simp only [hs, Bool.false_eq_true, if_false]
    refine ⟨fun h _ => absurd h (by simp [hs]), ?_⟩
    simp

/-- Witness for C4 at the concrete serial state `uEx`. -/
theorem c4_failure_spec_witness :
    ((Unit.failure uEx).remaining = uEx.remaining - 1 ∧
     (Unit.failure uEx)._failed = false ∧
     (Unit.failure uEx).age = 0 ∧
     (Unit.failure uEx).current_reliability = 1 ∧
     (Unit.failure uEx).prev_config = ∅) ∧
    ((Unit.failure uEx)._failed = true ↔ (Unit.failure uEx).remaining = 0) :=
  ⟨(c4_failure_spec uEx).1 rfl (by decide), (c4_failure_spec uEx).2⟩

/-- C5 counterexample: `reset()` does not clear `prev_config`; on a state
with `prev_config = {"B"}` the field is still non-empty afterwards. -/
theorem c5_reset_counterexample :
    (Unit.reset uEx).prev_config ≠ (∅ : Finset String) := by
  simp [Unit.reset, uEx]

/-- C5 (amended): `reset()` sets `age = 0`, `current_reliability = 1`,
`_failed = false`, `remaining = copies`; it leaves `prev_config` (and
`config`) unchanged, and the computed distributions and traces untouched. -/
theorem c5_reset_frame (u : UnitState) :
    (Unit.reset u).age = 0 ∧
    (Unit.reset u).current_reliability = 1 ∧
    (Unit.reset u)._failed = false ∧
    (Unit.reset u).remaining = u.copies ∧
    (Unit.reset u).prev_config = u.prev_config ∧
    (Unit.reset u).config = u.config ∧
    (Unit.reset u).traces = u.traces ∧
    (Unit.reset u).reliabilities = u.reliabilities ∧
    (Unit.reset u).overall_reliabilities = u.overall_reliabilities :=
  ⟨rfl, rfl, rfl, rfl, rfl, rfl, rfl, rfl, rfl⟩

/-- C6 counterexample: with `vdd = 1` and failure threshold `fail = 0`
the HCI threshold `dVth_fail` is zero, and at zero duty cycle the closed
form evaluates `0/0`: the result is NaN, not `+inf`. -/
theorem c6_hci_zero_duty_nan :
    HCI.timeToFailure dpDefault 0 (some 0) = FP.nan := by
  unfold HCI.timeToFailure fpDiv
  simp only [Option.getD_some]
  norm_num [dpDefault, Vt0_n, alphaPowerLaw, hci_n, Real.one_rpow,
    Real.zero_rpow]

/-- `fpDiv x 0 = +inf` for positive `x`. -/
theorem fpDiv_pos_zero (x : ℝ) (hx : 0 < x) : fpDiv x 0 = FP.inf := by
  simp [fpDiv, hx]

/-- C6 (amended): at zero duty cycle NBTI returns `+inf` for every data
point and failure threshold (explicit guard); HCI returns `+inf` whenever
its failure threshold is positive, i.e. `vdd > Vt0_n` and the (defaulted)
`fail` argument is positive — otherwise the `0/0` of the counterexample
occurs. -/
theorem c6_zero_duty_inf (fuel : ℕ) (dp : DataPoint) (fail : Option ℝ) :
    NBTI.timeToFailure fuel dp 0 fail = some FP.inf ∧
    (Vt0_n < dp.vdd → 0 < fail.getD fail_default →
      HCI.timeToFailure dp 0 fail = FP.inf) := by
  constructor
  · unfold NBTI.timeToFailure
    simp
  · intro hv hf
    have hv' : 0 < dp.vdd - Vt0_n := sub_pos.mpr hv
    have hpw : 1 < (1 + fail.getD fail_default) ^ ((1 : ℝ) / alphaPowerLaw) := by
      rw [Real.one_lt_rpow_iff_of_pos (by linarith)]
      left
      constructor
      · linarith
      · norm_num [alphaPowerLaw]
    have hfail : 0 < (dp.vdd - Vt0_n)
        - (dp.vdd - Vt0_n) / (1 + fail.getD fail_default) ^ ((1 : ℝ) / alphaPowerLaw) := by
      have := div_lt_self hv' hpw
      linarith
    have hsq : 0 < Real.sqrt (Cox * (dp.vdd - Vt0_n)) :=
      Real.sqrt_pos.mpr (mul_pos (by norm_num [Cox]) hv')
    have hA : 0 < q / Cox * hciK * Real.sqrt (Cox * (dp.vdd - Vt0_n)) := by
      have h1 : (0 : ℝ) < q / Cox := by norm_num [q, Cox]
      have h2 : (0 : ℝ) < hciK := by norm_num [hciK]
      exact mul_pos (mul_pos h1 h2) hsq
    simp only [HCI.timeToFailure]
    rw [zero_mul]
    apply fpDiv_pos_zero
    apply Real.rpow_pos_of_pos
    exact div_pos hfail (mul_pos (mul_pos hA (Real.exp_pos _)) (Real.exp_pos _))

/-- Witness for C6 (amended) at the default data point (`vdd = 1`) and a
NaN `fail` argument (defaulted to 0.05). -/
theorem c6_zero_duty_inf_witness :
    NBTI.timeToFailure 0 dpDefault 0 none = some FP.inf ∧
    HCI.timeToFailure dpDefault 0 none = FP.inf :=
  ⟨(c6_zero_duty_inf 0 dpDefault none).1,
   (c6_zero_duty_inf 0 dpDefault none).2 (by norm_num [dpDefault, Vt0_n])
     (by norm_num [fail_default])⟩

/-- C7 counterexample: on a generic unit whose trace carries a negative
activity, the stored duty cycle is negative — `min(x, 1.0)` clamps only
from above. -/
theorem c7_counterexample :
    storedDutyCycle UnitKind.unit dpNegActivity Mechanism.NBTI < 0 := by
  have h : activity UnitKind.unit dpNegActivity Mechanism.NBTI = -(1 / 2) := rfl
  rw [storedDutyCycle, h]
  rw [min_eq_left (by norm_num)]
  norm_num

/-- C7 (amended): the stored duty cycle is clamped from above at 1; there
is no lower clamp. -/
theorem c7_upper_clamp (k : UnitKind) (dp : DataPoint) (m : Mechanism) :
    storedDutyCycle k dp m ≤ 1 :=
  min_le_right _ _

/-- C8: TDDB time to failure is `V_dd^(a - b*T) * exp((X + Y/T + Z*T)/(k_B*T))`
with `a = 78`, `b = -0.081`, `X = 0.759`, `Y = -66.8`, `Z = -8.37e-4`. -/
theorem c8_tddb_formula (dp : DataPoint) :
    TDDB.timeToFailure dp
      = dp.vdd ^ ((78 : ℝ) - (-0.081) * dp.temperature)
        * Real.exp (((0.759 : ℝ) + (-66.8) / dp.temperature
              + (-8.37e-4) * dp.temperature)
            / ((8.6173303e-5 : ℝ) * dp.temperature)) := rfl

/-- C9 counterexample: 0 lies in the sampler's support
`[0, current_reliability)`, so the drawn reliability is not strictly
positive in general. -/
theorem c9_zero_in_support :
    (0 : ℝ) ∈ nextEventSupport 1 ∧ ¬ ((0 : ℝ) > 0) := by
  constructor
  · constructor
    · exact le_refl 0
    · norm_num
  · norm_num

/-- C9 (amended): every drawn value satisfies `0 ≤ r < current_reliability`
— zero included — and at `r = 0` the inverse evaluates `-log 0 = +inf`,
which `get_next_event` returns as `+inf` through its `isinf` guard
instead of failing. -/
theorem c9_draw_range (cr r : ℝ) (h : r ∈ nextEventSupport cr)
    (a beta : ℝ) (ha : 0 < a) (hb : 0 < beta) :
    (0 ≤ r ∧ r < cr) ∧ getNextEvent (some a) beta cr 0 = FP.inf := by
  refine ⟨⟨h.1, h.2⟩, ?_⟩
  have h1 : 0 < 1 / beta := by positivity
  unfold getNextEvent Weibull.inverseFP
  simp [h1, ha, hb]

/-- Witness for C9 (amended) at `current_reliability = 1`, draw `1/2`,
`alpha = 1`, `beta = 2`. -/
theorem c9_draw_range_witness :
    ((0 : ℝ) ≤ 1 / 2 ∧ (1 / 2 : ℝ) < 1) ∧ getNextEvent (some 1) 2 1 0 = FP.inf :=
  c9_draw_range 1 (1 / 2) (by norm_num [nextEventSupport, Set.mem_Ico])
    1 2 (by norm_num) (by norm_num)

/-- C10 counterexample: a group referencing the unit name `X` against an
empty registry is constructed normally, with the reference silently
dropped. -/
theorem c10_unknown_unit_not_fatal :
    buildGroup [] "root" 0 [XNode.unitRef "X"]
      = some (BuiltComp.group "root" 0 []) := by
  simp [buildGroup, buildChildren]

/-- List of unit references built by `Group::Group`: exactly the names
found in the registry survive, in order. -/
theorem buildChildren_unitRefs (units : List String) (refs : List String) :
    buildChildren units (refs.map XNode.unitRef)
      = some (((refs.filter (fun s => units.contains s)).map BuiltComp.unit)) := by
  induction refs with
  | nil => simp [buildChildren]
  | cons r rest ih =>
    rw [List.map_cons, buildChildren, ih]
    by_cases h : units.contains r
    · have h' : r ∈ units := by simpa using h
      simp [h, h', List.filter_cons]
    · have h' : r ∉ units := by simpa using h
      simp [h, h', List.filter_cons]

/-- C10 (amended): constructing a Group from unit references succeeds for
every registry; references whose name is not in the registry are skipped,
not fatal. -/
theorem c10_unit_refs_filtered (units : List String) (n : String) (k : ℕ)
    (refs : List String) :
    buildGroup units n k (refs.map XNode.unitRef)
      = some (BuiltComp.group n k
          ((refs.filter (fun s => units.contains s)).map BuiltComp.unit)) := by
  rw [buildGroup, buildChildren_unitRefs]
  rfl

end

end OldSpot
